import Mathlib

/-!
# Estuary: provider selection, deal-queue workers and the contents query builder

A shallow embedding of

* `miner/miner.go`   : `randomMinerListForDeal`, `GetDealProtocolForMiner`;
* `deal/worker.go`   : `getQueueTracker`, `backfillQueue`, the backfill tick of
  `runDealBackFillWorker`, and the batch callbacks of `runDealWorker` and
  `runDealCheckWorker`;
* `dbmgr.go`         : `ContentsQuery.WithActive`.

Calls that leave the repository (the Filecoin client, the ask cache, the deal
engine, the random source) are parameters of the model.  A call made while a
list is being walked receives the position of the element being visited, so
that successive calls are free to answer differently.
-/

namespace Estuary

/-! ## miner/miner.go -/

/-- Go `address.Address` (a wrapped string). -/
abbrev Address := String

/-- Go `protocol.ID` (a string). -/
abbrev ProtocolID := String

/-- The columns of `model.StorageMiner` that `randomMinerListForDeal` reads:
`dbm.Address.Addr` and the `suspended` column of its `Find` condition. -/
structure StorageMiner where
  Address : Address
  Suspended : Bool
deriving DecidableEq, Repr

/-- Go `type miner struct`; `α` is `model.MinerStorageAsk`. -/
structure miner (α : Type) where
  Address : Address
  DealProtocolVersion : ProtocolID
  Ask : α
deriving DecidableEq, Repr

/-- The fields of `cfg.Deal` used by the selector.  `EnabledDealProtocolsVersions`
is a Go `map[protocol.ID]bool`, kept as its key/value pairs. -/
structure DealConfig where
  IsVerified : Bool
  EnabledDealProtocolsVersions : List (ProtocolID × Bool)

/-- What `MinerManager` offers to `randomMinerListForDeal`.

* `DB` is the outcome of reading the `storage_miners` table: its rows, or the
  error of the read.
* `DealProtocolForMiner` is `mgr.FilClient.DealProtocolForMiner`, `GetAsk` is
  `mgr.GetAsk(ctx, addr, 30 min)`; the first argument is the position of the
  provider being visited.
* `PriceIsTooHigh` and `SizeIsCloseEnough` are the two methods of
  `model.MinerStorageAsk`, whose declaration is outside the modelled files. -/
structure MinerManager (α : Type) where
  DB : Except String (List StorageMiner)
  cfg : DealConfig
  DealProtocolForMiner : Nat → Address → Except String ProtocolID
  GetAsk : Nat → Address → Except String α
  PriceIsTooHigh : α → Bool → Bool
  SizeIsCloseEnough : α → Nat → Bool

/-- Go map `exclude map[address.Address]bool`, by its lookup `exclude[a]`
(a missing key reads `false`). -/
abbrev ExcludeSet := Address → Bool

/-- Go `exclude[a] = true`. -/
def ExcludeSet.insert (exclude : ExcludeSet) (a : Address) : ExcludeSet :=
  fun b => if b = a then true else exclude b

/-- Go `GetDealProtocolForMiner`: ask the client, then look the answer up in the
allow-list (`_, ok := m[proto]` tests that the key is present). -/
def MinerManager.GetDealProtocolForMiner {α : Type} (mgr : MinerManager α) (i : Nat)
    (miner : Address) : Except String ProtocolID :=
  match mgr.DealProtocolForMiner i miner with
  | .error err => .error err
  | .ok proto =>
    match mgr.cfg.EnabledDealProtocolsVersions.lookup proto with
    | none => .error ("miner deal protocol:" ++ proto ++ " is not currently enabeld")
    | some _ => .ok proto

/-- The callback handed to `rand.Shuffle`:
`dbminers[i], dbminers[j] = dbminers[j], dbminers[i]`. -/
def swap {β : Type} (l : List β) (i j : Nat) : List β :=
  match l[i]?, l[j]? with
  | some a, some b => (l.set i b).set j a
  | _, _ => l

/-- The loop of `rand.Shuffle`: `for ; i > 0; i-- { j := Intn(i+1); swap(i, j) }`.
The draw for position `i` is `rnd i % (i+1)`. -/
def shuffleFrom {β : Type} (rnd : Nat → Nat) : Nat → List β → List β
  | 0, l => l
  | i + 1, l => shuffleFrom rnd i (swap l (i + 1) (rnd (i + 1) % (i + 2)))

/-- Go `rand.Shuffle(len(l), swap)`: starts at `i = len(l) - 1`. -/
def Shuffle {β : Type} (rnd : Nat → Nat) (l : List β) : List β :=
  shuffleFrom rnd (l.length - 1) l

/-- The `for _, dbm := range dbminers` loop of `randomMinerListForDeal`.
`i` is the position of the head of the list in `dbminers`. -/
def selectLoop {α : Type} (mgr : MinerManager α) (n : Int) (pieceSize : Nat)
    (filterByPrice : Bool) :
    Nat → List StorageMiner → List (miner α) → ExcludeSet → List (miner α) × ExcludeSet
  | _, [], out, exclude => (out, exclude)
  | i, dbm :: rest, out, exclude =>
    if (out.length : Int) ≥ n then (out, exclude)
    else if exclude dbm.Address then
      selectLoop mgr n pieceSize filterByPrice (i + 1) rest out exclude
    else
      match mgr.GetDealProtocolForMiner i dbm.Address with
      | .error _ => selectLoop mgr n pieceSize filterByPrice (i + 1) rest out exclude
      | .ok proto =>
        match mgr.GetAsk i dbm.Address with
        | .error _ => selectLoop mgr n pieceSize filterByPrice (i + 1) rest out exclude
        | .ok ask =>
          if filterByPrice && mgr.PriceIsTooHigh ask mgr.cfg.IsVerified then
            selectLoop mgr n pieceSize filterByPrice (i + 1) rest out exclude
          else if mgr.SizeIsCloseEnough ask pieceSize then
            selectLoop mgr n pieceSize filterByPrice (i + 1) rest
              (out ++ [{ Address := dbm.Address, DealProtocolVersion := proto, Ask := ask }])
              (exclude.insert dbm.Address)
          else
            selectLoop mgr n pieceSize filterByPrice (i + 1) rest out exclude

/-- Go `randomMinerListForDeal`.  Returns the Go result `([]miner, error)` and the
caller's `exclude` map as the call leaves it.  `rnd` feeds `rand.Shuffle`. -/
def MinerManager.randomMinerListForDeal {α : Type} (mgr : MinerManager α) (rnd : Nat → Nat)
    (n : Int) (pieceSize : Nat) (exclude : ExcludeSet) (filterByPrice : Bool) :
    Except String (List (miner α)) × ExcludeSet :=
  match mgr.DB with
  | .error err => (.error err, exclude)
  | .ok rows =>
    let dbminers := rows.filter (fun r => !r.Suspended)
    if dbminers.length = 0 then (.ok [], exclude)
    else
      let r := selectLoop mgr n pieceSize filterByPrice 0 (Shuffle rnd dbminers) [] exclude
      (.ok r.1, r.2)

/-! ## Provider selection as the specification words it (§4.5) -/

/-- Spec side: the tests of step 3 on one provider address, for lookups `proto`
and `ask` that answer by address.  A provider passes when it is not in
`exclude`, its protocol resolves and is a key of the allow-list, its ask
resolves, the ask is not too expensive when `filterByPrice` is set, and the
ask's size range is close enough to `pieceSize`. -/
def specAccept {α : Type} (mgr : MinerManager α) (proto : Address → Except String ProtocolID)
    (ask : Address → Except String α) (pieceSize : Nat) (exclude : ExcludeSet)
    (filterByPrice : Bool) (a : Address) : Option (miner α) :=
  if exclude a then none
  else
    match proto a, ask a with
    | .ok p, .ok k =>
      if (mgr.cfg.EnabledDealProtocolsVersions.lookup p).isSome
          && !(filterByPrice && mgr.PriceIsTooHigh k mgr.cfg.IsVerified)
          && mgr.SizeIsCloseEnough k pieceSize
      then some { Address := a, DealProtocolVersion := p, Ask := k }
      else none
    | _, _ => none

/-- Spec side: each address counted once, at its first occurrence. -/
def firstPerAddress {α : Type} : List (miner α) → List (miner α)
  | [] => []
  | m :: ms => m :: (firstPerAddress ms).filter (fun x => decide (x.Address ≠ m.Address))

/-- Spec side: the first `n` eligible providers of `order`, each address once. -/
def specSelect {α : Type} (mgr : MinerManager α) (proto : Address → Except String ProtocolID)
    (ask : Address → Except String α) (n : Int) (pieceSize : Nat) (exclude : ExcludeSet)
    (filterByPrice : Bool) (order : List StorageMiner) : List (miner α) :=
  (firstPerAddress (order.filterMap
    (fun dbm => specAccept mgr proto ask pieceSize exclude filterByPrice dbm.Address))).take n.toNat

/-! ## deal/worker.go -/

/-- The columns of `util.Content` read by the backfill worker. -/
structure Content where
  ID : Nat
  Size : Int
  Active : Bool
deriving DecidableEq, Repr

/-- Go `model.DealQueueTracker`. -/
structure DealQueueTracker where
  ID : Nat
  LastContID : Nat
  StopAt : Nat
  BackfillDone : Bool
deriving DecidableEq, Repr

/-- The persisted state behind `m.db`, as far as the backfill worker touches it.

* `contents`: the `contents` table.
* `trackers`: the `deal_queue_trackers` table, in the order `Find` returns it.
* `queued`: the content ids for which `dealQueueMgr.QueueContent` succeeded,
  in call order.
* `ops`: how many store operations have been issued so far. -/
structure Store where
  contents : List Content
  trackers : List DealQueueTracker
  queued : List Nat
  ops : Nat
deriving DecidableEq, Repr

/-- The `cfg.Content` size bounds. -/
structure ContentConfig where
  MinSize : Int
  MaxSize : Int

/-- What the deal `manager` brings to the backfill worker: its configuration,
and for each store operation (numbered in issue order) whether it returns an
error.  A failed operation leaves the store as it was. -/
structure manager where
  cfg : ContentConfig
  storeFails : Nat → Bool

/-- One store operation has been issued. -/
def Store.step (db : Store) : Store := { db with ops := db.ops + 1 }

/-- The order of `ORDER BY id ASC`. -/
def idAsc (a b : Content) : Prop := a.ID ≤ b.ID

instance : DecidableRel idAsc := fun a b => inferInstanceAs (Decidable (a.ID ≤ b.ID))

/-- The order of `ORDER BY id DESC`. -/
def idDesc (a b : Content) : Prop := b.ID ≤ a.ID

instance : DecidableRel idDesc := fun a b => inferInstanceAs (Decidable (b.ID ≤ a.ID))

/-- Go `UpdateColumn("backfill_done", true)` on the rows `WHERE id = ?`. -/
def setBackfillDone (id : Nat) (trks : List DealQueueTracker) : List DealQueueTracker :=
  trks.map (fun t => if t.ID = id then { t with BackfillDone := true } else t)

/-- Go `UpdateColumn("last_cont_id", v)` on the rows `WHERE id = ?`. -/
def setLastContID (id v : Nat) (trks : List DealQueueTracker) : List DealQueueTracker :=
  trks.map (fun t => if t.ID = id then { t with LastContID := v } else t)

/-- Go `UpdateColumn("stop_at", v)` on the rows `WHERE id = ?`. -/
def setStopAt (id v : Nat) (trks : List DealQueueTracker) : List DealQueueTracker :=
  trks.map (fun t => if t.ID = id then { t with StopAt := v } else t)

/-- The tail of `getQueueTracker` (`if trk.LastContID >= trk.StopAt { ... }`
and the final `return trk, nil`). -/
def markIfDone (m : manager) (trk : DealQueueTracker) (db : Store) :
    Except String DealQueueTracker × Store :=
  if trk.LastContID ≥ trk.StopAt then
    if m.storeFails db.ops then (.error "update backfill_done", db.step)
    else
      (.ok { trk with BackfillDone := true },
        { db.step with trackers := setBackfillDone trk.ID db.trackers })
  else (.ok trk, db)

/-- Go `getQueueTracker`. -/
def getQueueTracker (m : manager) (db : Store) : Except String DealQueueTracker × Store :=
  -- m.db.Find(&trks)
  if m.storeFails db.ops then (.error "find trackers", db.step)
  else
    let db := db.step
    match db.trackers with
    | t :: _ =>
      if t.BackfillDone then (.ok t, db) else markIfDone m t db
    | [] =>
      -- m.db.Where("size > 0").Order("id desc").Limit(1).Find(&contents)
      if m.storeFails db.ops then (.error "find contents", db.step)
      else
        let db := db.step
        let contents := ((db.contents.filter (fun c => decide (c.Size > 0))).insertionSort
          idDesc).take 1
        let stopAt := match contents with
          | c :: _ => c.ID
          | [] => 0
        -- m.db.Create(&trk); the first row of the table gets id 1
        if m.storeFails db.ops then (.error "create tracker", db.step)
        else
          let trk : DealQueueTracker :=
            { ID := 1, LastContID := 0, StopAt := stopAt, BackfillDone := false }
          markIfDone m trk { db.step with trackers := db.trackers ++ [trk] }

/-- Go `backfillQueue`: `QueueContent(cont.ID)`, then move `last_cont_id` of the
tracker row to `cont.ID`. -/
def backfillQueue (m : manager) (cont : Content) (tracker : DealQueueTracker) (db : Store) :
    Except String Unit × Store :=
  if m.storeFails db.ops then (.error "queue content", db.step)
  else
    let db := { db.step with queued := db.queued ++ [cont.ID] }
    if m.storeFails db.ops then (.error "update last_cont_id", db.step)
    else (.ok (), { db.step with trackers := setLastContID tracker.ID cont.ID db.trackers })

/-- The `for _, c := range contents` loop of the backfill tick; an error of
`backfillQueue` leaves the loop. -/
def backfillLoop (m : manager) (tracker : DealQueueTracker) : List Content → Store → Store
  | [], db => db
  | c :: cs, db =>
    match backfillQueue m c tracker db with
    | (.error _, db) => db
    | (.ok _, db) => backfillLoop m tracker cs db

/-- The page query of the backfill tick:
`Where("size >= ? and size <= ? and active", MinSize, MaxSize).Order("id asc").Limit(2000)`. -/
def backfillPage (m : manager) (db : Store) : List Content :=
  ((db.contents.filter (fun c =>
      decide (c.Size ≥ m.cfg.MinSize) && decide (c.Size ≤ m.cfg.MaxSize) && c.Active)).insertionSort
    idAsc).take 2000

/-- How a run of `runDealBackFillWorker` stands: still in its `for` loop, left
through a `return`, or stopped by a nil dereference. -/
inductive WorkerStatus where
  | running
  | returned
  | panicked
deriving DecidableEq, Repr

/-- The body of `case <-timer.C:` in `runDealBackFillWorker`. -/
def backfillTick (m : manager) (db : Store) : WorkerStatus × Store :=
  match getQueueTracker m db with
  | (.error _, db) => (.running, db)
  | (.ok tracker, db) =>
    if tracker.BackfillDone then (.returned, db)
    else if m.storeFails db.ops then (.running, db.step)
    else
      let contents := backfillPage m db
      let db := backfillLoop m tracker contents db.step
      if contents.length = 0 then
        if m.storeFails db.ops then (.running, db.step)
        else (.running, { db.step with trackers := setStopAt tracker.ID tracker.LastContID db.trackers })
      else (.running, db)

/-- The start of `runDealBackFillWorker`, before the ticker is created.  When
`getQueueTracker` fails, `tracker` is nil and `tracker.BackfillDone` panics. -/
def backfillStart (m : manager) (db : Store) : WorkerStatus × Store :=
  match getQueueTracker m db with
  | (.error _, db) => (.panicked, db)
  | (.ok tracker, db) => if tracker.BackfillDone then (.returned, db) else (.running, db)

/-- The `for { select { ... } }` loop for `k` firings of the timer. -/
def backfillTicks (m : manager) : Nat → WorkerStatus × Store → WorkerStatus × Store
  | 0, s => s
  | k + 1, (.running, db) => backfillTicks m k (backfillTick m db)
  | _ + 1, s => s

/-- Go `runDealBackFillWorker`, observed after `k` firings of its timer. -/
def runDealBackFillWorker (m : manager) (k : Nat) (db : Store) : WorkerStatus × Store :=
  backfillTicks m k (backfillStart m db)

/-- The columns of `model.DealQueue` read by the deal workers. -/
structure DealQueue where
  ID : Nat
  ContID : Nat
  DealCount : Int
deriving DecidableEq, Repr

/-- The calls the deal workers make on `dealQueueMgr`. -/
inductive QueueCall where
  | DealFailed (contID : Nat)
  | DealComplete (contID : Nat)
  | DealCheckFailed (contID : Nat)
  | DealCheckComplete (contID : Nat) (dealsToBeMade : Int)
deriving DecidableEq, Repr

/-- The batch callback of `runDealWorker`.  `makeDealsForContent i contID count`
is the error (if any) of the call made for the entry at position `i`; `log`
collects the calls on `dealQueueMgr` in the order they are made. -/
def runDealWorkerBatch (makeDealsForContent : Nat → Nat → Int → Option String) :
    Nat → List DealQueue → List QueueCall → List QueueCall
  | _, [], log => log
  | i, t :: tasks, log =>
    match makeDealsForContent i t.ContID t.DealCount with
    | some _ =>
      runDealWorkerBatch makeDealsForContent (i + 1) tasks (log ++ [.DealFailed t.ContID])
    | none =>
      runDealWorkerBatch makeDealsForContent (i + 1) tasks (log ++ [.DealComplete t.ContID])

/-- The batch callback of `runDealCheckWorker`.  `checkContentDeals i contID` is
the result `(dealsToBeMade, err)` of the call made for the entry at position `i`. -/
def runDealCheckWorkerBatch (checkContentDeals : Nat → Nat → Except String Int) :
    Nat → List DealQueue → List QueueCall → List QueueCall
  | _, [], log => log
  | i, t :: tasks, log =>
    match checkContentDeals i t.ContID with
    | .error _ =>
      runDealCheckWorkerBatch checkContentDeals (i + 1) tasks (log ++ [.DealCheckFailed t.ContID])
    | .ok dealsToBeMade =>
      runDealCheckWorkerBatch checkContentDeals (i + 1) tasks
        (log ++ [.DealCheckComplete t.ContID dealsToBeMade])

/-! ## dbmgr.go -/

/-- The columns of the `contents` table that `ContentsQuery` filters on. -/
structure ContentRow where
  ID : Nat
  Active : Bool
  UserID : Nat
deriving DecidableEq, Repr

/-- The conditions `ContentsQuery` chains with `Where`. -/
inductive Cond where
  | idEq (id : Nat)
  | active
  | userIdEq (userID : Nat)
deriving DecidableEq, Repr

/-- Whether a row satisfies a condition. -/
def Cond.holds : Cond → ContentRow → Bool
  | .idEq id, c => decide (c.ID = id)
  | .active, c => c.Active
  | .userIdEq userID, c => decide (c.UserID = userID)

/-- Go `ContentsQuery`: the conditions accumulated on `q.DB`. -/
structure ContentsQuery where
  DB : List Cond
deriving DecidableEq, Repr

/-- Go `NewContentsQuery`. -/
def NewContentsQuery : ContentsQuery := { DB := [] }

/-- Go `WithID`: `q.DB.Where("id = ?", id)`. -/
def ContentsQuery.WithID (q : ContentsQuery) (id : Nat) : ContentsQuery :=
  { DB := q.DB ++ [.idEq id] }

/-- Go `WithActive`: `q.DB.Where("active")`; the argument is not read. -/
def ContentsQuery.WithActive (q : ContentsQuery) (_active : Bool) : ContentsQuery :=
  { DB := q.DB ++ [.active] }

/-- Go `WithUserID`: `q.DB.Where("user_id = ?", userID)`. -/
def ContentsQuery.WithUserID (q : ContentsQuery) (userID : Nat) : ContentsQuery :=
  { DB := q.DB ++ [.userIdEq userID] }

/-- The rows a query selects from a table: those meeting every condition. -/
def ContentsQuery.rows (q : ContentsQuery) (table : List ContentRow) : List ContentRow :=
  table.filter (fun c => q.DB.all (fun w => w.holds c))

/-! ## Fixtures -/

/-- The protocol every provider of the §8 selector scenario announces. -/
def scenarioProto : Address → Except String ProtocolID :=
  fun _ => .ok "/fil/storage/mk/1.2.0"

/-- The asks of the §8 selector scenario, an ask being its price: `f02` asks
100, everyone else 5. -/
def scenarioAsk : Address → Except String Nat :=
  fun a => .ok (if a = "f02" then 100 else 5)

/-- The stored providers of the §8 selector scenario: `f01` is suspended. -/
def scenarioRows : List StorageMiner :=
  [⟨"f01", true⟩, ⟨"f02", false⟩, ⟨"f03", false⟩]

/-- The §8 selector scenario: three providers, `f01` suspended, `f02` priced
above the ceiling (10), `f03` eligible. -/
def scenarioMgr : MinerManager Nat where
  DB := .ok scenarioRows
  cfg := { IsVerified := false,
           EnabledDealProtocolsVersions := [("/fil/storage/mk/1.2.0", true)] }
  DealProtocolForMiner := fun _ => scenarioProto
  GetAsk := fun _ => scenarioAsk
  PriceIsTooHigh := fun price _ => decide (price > 10)
  SizeIsCloseEnough := fun _ _ => true

/-- The empty exclude map. -/
def noExclude : ExcludeSet := fun _ => false

/-- A deal manager whose store never returns an error, with content size
bounds 1 and 100. -/
def steadyManager : manager := { cfg := { MinSize := 1, MaxSize := 100 }, storeFails := fun _ => false }

/-- A tracker row past its horizon: `lastContentID = 7 > stopAt = 5`. -/
def staleStore : Store :=
  { contents := [⟨1, 10, true⟩],
    trackers := [{ ID := 1, LastContID := 7, StopAt := 5, BackfillDone := false }],
    queued := [], ops := 0 }

/-- A store without contents and without a tracker row. -/
def emptyStore : Store := { contents := [], trackers := [], queued := [], ops := 0 }

/-- A store whose tracker row is already marked done. -/
def doneStore : Store :=
  { contents := [⟨1, 10, true⟩, ⟨2, 10, true⟩],
    trackers := [{ ID := 1, LastContID := 1, StopAt := 2, BackfillDone := true }],
    queued := [1], ops := 0 }

/-- The §8 backfill scenario: no tracker row, contents 1..5000, all active and
of size 10 (within the bounds of `steadyManager`). -/
def scenarioStore : Store :=
  { contents := (List.range' 1 5000).map (fun i => ⟨i, 10, true⟩),
    trackers := [], queued := [], ops := 0 }

/-- Two contents, the first eligible, the second inactive; no tracker row. -/
def stalledStore : Store :=
  { contents := [⟨1, 10, true⟩, ⟨2, 10, false⟩], trackers := [], queued := [], ops := 0 }

/-- Three contents, the first two eligible, the third inactive; no tracker row. -/
def retryStore : Store :=
  { contents := [⟨1, 10, true⟩, ⟨2, 10, true⟩, ⟨3, 10, false⟩],
    trackers := [], queued := [], ops := 0 }

/-- A deal manager whose store fails once, on its fourteenth operation (number
13): on `retryStore` that is the `QueueContent` call for content 2 in the
second tick. -/
def flakyManager : manager :=
  { cfg := { MinSize := 1, MaxSize := 100 }, storeFails := fun k => k == 13 }

/-! ## Provider selection: lemmas -/

theorem swap_perm {β : Type} [DecidableEq β] (l : List β) (i j : Nat) : (swap l i j).Perm l := by
  unfold swap
  split
  · rename_i a b ha hb
    obtain ⟨hi, rfl⟩ := List.getElem?_eq_some.1 ha
    obtain ⟨hj, rfl⟩ := List.getElem?_eq_some.1 hb
    rw [List.perm_iff_count]
    intro x
    have hj' : j < (l.set i l[j]).length := by simpa using hj
    rw [List.count_set _ _ _ _ hj', List.count_set _ _ _ _ hi, List.getElem_set]
    have h1 := List.boole_getElem_le_countP (fun y => y == x) l i hi
    have h2 := List.boole_getElem_le_countP (fun y => y == x) l j hj
    rw [← List.count_eq_countP] at h1 h2
    by_cases hij : i = j
    · subst hij
      simp only [if_true]
      split <;> simp_all
    · simp only [if_neg hij]
      split <;> split <;> simp_all
  · exact List.Perm.refl _

theorem shuffleFrom_perm {β : Type} [DecidableEq β] (rnd : Nat → Nat) :
    ∀ (i : Nat) (l : List β), (shuffleFrom rnd i l).Perm l
  | 0, l => List.Perm.refl l
  | i + 1, l => (shuffleFrom_perm rnd i _).trans (swap_perm l _ _)

theorem Shuffle_perm {β : Type} [DecidableEq β] (rnd : Nat → Nat) (l : List β) :
    (Shuffle rnd l).Perm l :=
  shuffleFrom_perm rnd _ l

theorem insert_apply (ex : ExcludeSet) (a b : Address) :
    ex.insert a b = (decide (b = a) || ex b) := by
  unfold ExcludeSet.insert
  by_cases h : b = a <;> simp [h]

theorem selectLoop_spec {α : Type} (mgr : MinerManager α) (n : Int) (ps : Nat) (fbp : Bool) :
    ∀ (l : List StorageMiner) (i : Nat) (out : List (miner α)) (ex : ExcludeSet),
      ∃ added : List (miner α),
        (selectLoop mgr n ps fbp i l out ex).1 = out ++ added ∧
        (∀ a, (selectLoop mgr n ps fbp i l out ex).2 a
          = (ex a || decide (a ∈ added.map (fun m => m.Address)))) ∧
        (added.map (fun m => m.Address)).Nodup ∧
        ((out.length : Int) ≤ n → ((out ++ added).length : Int) ≤ n) ∧
        ∀ m ∈ added, ex m.Address = false ∧ (∃ dbm ∈ l, dbm.Address = m.Address) ∧
          (fbp = true → mgr.PriceIsTooHigh m.Ask mgr.cfg.IsVerified = false) ∧
          mgr.SizeIsCloseEnough m.Ask ps = true := by
  intro l
  induction l with
  | nil =>
    intro i out ex
    exact ⟨[], by simp [selectLoop]⟩
  | cons dbm rest ih =>
    intro i out ex
    have skip : selectLoop mgr n ps fbp i (dbm :: rest) out ex
        = selectLoop mgr n ps fbp (i + 1) rest out ex →
        ∃ added : List (miner α),
        (selectLoop mgr n ps fbp i (dbm :: rest) out ex).1 = out ++ added ∧
        (∀ a, (selectLoop mgr n ps fbp i (dbm :: rest) out ex).2 a
          = (ex a || decide (a ∈ added.map (fun m => m.Address)))) ∧
        (added.map (fun m => m.Address)).Nodup ∧
        ((out.length : Int) ≤ n → ((out ++ added).length : Int) ≤ n) ∧
        ∀ m ∈ added, ex m.Address = false ∧ (∃ dbm' ∈ dbm :: rest, dbm'.Address = m.Address) ∧
          (fbp = true → mgr.PriceIsTooHigh m.Ask mgr.cfg.IsVerified = false) ∧
          mgr.SizeIsCloseEnough m.Ask ps = true := by
      intro h
      obtain ⟨added, h1, h2, h3, h4, h5⟩ := ih (i + 1) out ex
      refine ⟨added, by rw [h, h1], by rw [h]; exact h2, h3, h4, ?_⟩
      intro m hm
      obtain ⟨a1, ⟨d, hd, hda⟩, a3, a4⟩ := h5 m hm
      exact ⟨a1, ⟨d, List.mem_cons_of_mem _ hd, hda⟩, a3, a4⟩
    by_cases hfull : (out.length : Int) ≥ n
    · refine ⟨[], ?_⟩
      simp [selectLoop, hfull]
    by_cases hex : ex dbm.Address = true
    · exact skip (by simp [selectLoop, hfull, hex])
    cases hp : mgr.GetDealProtocolForMiner i dbm.Address with
    | error e => exact skip (by simp [selectLoop, hfull, hex, hp])
    | ok proto =>
      cases ha : mgr.GetAsk i dbm.Address with
      | error e => exact skip (by simp [selectLoop, hfull, hex, hp, ha])
      | ok ask =>
        by_cases hprice : (fbp && mgr.PriceIsTooHigh ask mgr.cfg.IsVerified) = true
        · exact skip (by simp only [selectLoop, hfull, hex, hp, ha, hprice]; simp)
        by_cases hsize : mgr.SizeIsCloseEnough ask ps = true
        · have hstep : selectLoop mgr n ps fbp i (dbm :: rest) out ex
              = selectLoop mgr n ps fbp (i + 1) rest
                (out ++ [{ Address := dbm.Address, DealProtocolVersion := proto, Ask := ask }])
                (ex.insert dbm.Address) := by
            simp only [selectLoop, hfull, hex, hp, ha, hprice, hsize]; simp
          obtain ⟨added, h1, h2, h3, h4, h5⟩ := ih (i + 1)
            (out ++ [{ Address := dbm.Address, DealProtocolVersion := proto, Ask := ask }])
            (ex.insert dbm.Address)
          refine ⟨{ Address := dbm.Address, DealProtocolVersion := proto, Ask := ask } :: added,
            ?_, ?_, ?_, ?_, ?_⟩
          · rw [hstep, h1]; simp
          · intro a
            rw [hstep, h2 a, insert_apply]
            by_cases haa : a = dbm.Address <;> simp [haa, Bool.or_comm]
          · rw [List.map_cons, List.nodup_cons]
            refine ⟨?_, h3⟩
            intro hmem
            obtain ⟨m, hm, hma⟩ := List.mem_map.1 hmem
            have := (h5 m hm).1
            rw [insert_apply] at this
            simp at hma
            simp [hma] at this
          · intro _
            have := h4 (by simp at hfull ⊢; omega)
            simpa using this
          · intro m hm
            rcases List.mem_cons.1 hm with rfl | hm
            · refine ⟨by simpa using hex, ⟨dbm, List.mem_cons_self _ _, rfl⟩, ?_, hsize⟩
              intro hf
              simpa [hf] using hprice
            · obtain ⟨a1, ⟨d, hd, hda⟩, a3, a4⟩ := h5 m hm
              rw [insert_apply] at a1
              exact ⟨by simp at a1; exact a1.2, ⟨d, List.mem_cons_of_mem _ hd, hda⟩, a3, a4⟩
        · exact skip (by simp only [selectLoop, hfull, hex, hp, ha, hprice, hsize]; simp)

theorem specAccept_address {α : Type} (mgr : MinerManager α) (proto : Address → Except String ProtocolID)
    (ask : Address → Except String α) (ps : Nat) (ex : ExcludeSet) (fbp : Bool) (a : Address)
    (m : miner α) (h : specAccept mgr proto ask ps ex fbp a = some m) : m.Address = a := by
  unfold specAccept at h
  split at h
  · simp at h
  · split at h
    · split at h
      · simp at h; rw [← h]
      · simp at h
    · simp at h

theorem specAccept_insert {α : Type} (mgr : MinerManager α) (proto : Address → Except String ProtocolID)
    (ask : Address → Except String α) (ps : Nat) (ex : ExcludeSet) (fbp : Bool) (a b : Address) :
    specAccept mgr proto ask ps (ex.insert a) fbp b
      = if b = a then none else specAccept mgr proto ask ps ex fbp b := by
  unfold specAccept
  rw [insert_apply]
  by_cases h : b = a <;> simp [h]

theorem filterMap_specAccept_insert {α : Type} (mgr : MinerManager α)
    (proto : Address → Except String ProtocolID) (ask : Address → Except String α) (ps : Nat)
    (ex : ExcludeSet) (fbp : Bool) (a : Address) (l : List StorageMiner) :
    l.filterMap (fun dbm => specAccept mgr proto ask ps (ex.insert a) fbp dbm.Address)
      = (l.filterMap (fun dbm => specAccept mgr proto ask ps ex fbp dbm.Address)).filter
          (fun x => decide (x.Address ≠ a)) := by
  induction l with
  | nil => rfl
  | cons d ds ih =>
    rw [List.filterMap_cons, List.filterMap_cons, specAccept_insert]
    by_cases hda : d.Address = a
    · rw [if_pos hda]
      cases hs : specAccept mgr proto ask ps ex fbp d.Address with
      | none => simpa using ih
      | some m =>
        have := specAccept_address _ _ _ _ _ _ _ _ hs
        simp only [ih]
        rw [List.filter_cons_of_neg]
        simp [this, hda]
    · rw [if_neg hda]
      cases hs : specAccept mgr proto ask ps ex fbp d.Address with
      | none => simpa using ih
      | some m =>
        have := specAccept_address _ _ _ _ _ _ _ _ hs
        simp only [ih]
        rw [List.filter_cons_of_pos]
        simp [this, hda]

theorem firstPerAddress_filter {α : Type} (a : Address) (l : List (miner α)) :
    firstPerAddress (l.filter (fun x => decide (x.Address ≠ a)))
      = (firstPerAddress l).filter (fun x => decide (x.Address ≠ a)) := by
  induction l with
  | nil => rfl
  | cons m ms ih =>
    by_cases hm : m.Address = a
    · rw [List.filter_cons_of_neg (by simp [hm]), ih]
      simp only [firstPerAddress]
      rw [List.filter_cons_of_neg (by simp [hm]), List.filter_filter]
      congr 1
      funext x
      simp [hm]
    · rw [List.filter_cons_of_pos (by simp [hm])]
      simp only [firstPerAddress]
      rw [List.filter_cons_of_pos (by simp [hm]), ih, List.filter_filter, List.filter_filter]
      congr 2
      funext x
      simp [Bool.and_comm]

theorem selectLoop_refines {α : Type} (mgr : MinerManager α)
    (proto : Address → Except String ProtocolID) (ask : Address → Except String α)
    (hproto : ∀ i a, mgr.DealProtocolForMiner i a = proto a)
    (hask : ∀ i a, mgr.GetAsk i a = ask a) (n : Int) (ps : Nat) (fbp : Bool) :
    ∀ (l : List StorageMiner) (i : Nat) (out : List (miner α)) (ex : ExcludeSet),
      (selectLoop mgr n ps fbp i l out ex).1
        = out ++ (firstPerAddress (l.filterMap
            (fun dbm => specAccept mgr proto ask ps ex fbp dbm.Address))).take
              (n - out.length).toNat := by
  intro l
  induction l with
  | nil => intro i out ex; simp [selectLoop, firstPerAddress]
  | cons dbm rest ih =>
    intro i out ex
    by_cases hfull : (out.length : Int) ≥ n
    · have : (n - (out.length : Int)).toNat = 0 := by omega
      simp [selectLoop, hfull, this]
    have skip : selectLoop mgr n ps fbp i (dbm :: rest) out ex
        = selectLoop mgr n ps fbp (i + 1) rest out ex →
        specAccept mgr proto ask ps ex fbp dbm.Address = none →
        (selectLoop mgr n ps fbp i (dbm :: rest) out ex).1
        = out ++ (firstPerAddress ((dbm :: rest).filterMap
            (fun dbm => specAccept mgr proto ask ps ex fbp dbm.Address))).take
              (n - out.length).toNat := by
      intro h hs
      rw [h, ih, List.filterMap_cons, hs]
    by_cases hex : ex dbm.Address = true
    · exact skip (by simp [selectLoop, hfull, hex]) (by simp [specAccept, hex])
    have hpr : mgr.GetDealProtocolForMiner i dbm.Address
        = match proto dbm.Address with
          | .error err => .error err
          | .ok p =>
            match mgr.cfg.EnabledDealProtocolsVersions.lookup p with
            | none => .error ("miner deal protocol:" ++ p ++ " is not currently enabeld")
            | some _ => .ok p := by
      simp only [MinerManager.GetDealProtocolForMiner, hproto]
    cases hp : proto dbm.Address with
    | error e =>
      rw [hp] at hpr
      exact skip (by simp [selectLoop, hfull, hex, hpr]) (by simp [specAccept, hex, hp])
    | ok p =>
      rw [hp] at hpr
      cases hl : mgr.cfg.EnabledDealProtocolsVersions.lookup p with
      | none =>
        simp only [hl] at hpr
        refine skip (by simp [selectLoop, hfull, hex, hpr]) ?_
        simp only [specAccept, hex, hp]
        cases ask dbm.Address <;> simp [hl]
      | some v =>
        simp only [hl] at hpr
        cases ha : ask dbm.Address with
        | error e =>
          exact skip (by simp [selectLoop, hfull, hex, hpr, hask, ha])
            (by simp [specAccept, hex, hp, ha])
        | ok k =>
          by_cases hprice : (fbp && mgr.PriceIsTooHigh k mgr.cfg.IsVerified) = true
          · exact skip (by simp only [selectLoop, hfull, hex, hpr, hask, ha, hprice]; simp)
              (by simp only [specAccept, hex, hp, ha, hprice]; simp)
          by_cases hsize : mgr.SizeIsCloseEnough k ps = true
          · have hstep : selectLoop mgr n ps fbp i (dbm :: rest) out ex
                = selectLoop mgr n ps fbp (i + 1) rest
                  (out ++ [{ Address := dbm.Address, DealProtocolVersion := p, Ask := k }])
                  (ex.insert dbm.Address) := by
              simp only [selectLoop, hfull, hex, hpr, hask, ha, hprice, hsize]; simp
            have hs : specAccept mgr proto ask ps ex fbp dbm.Address
                = some { Address := dbm.Address, DealProtocolVersion := p, Ask := k } := by
              simp only [specAccept, hex, hp, ha, hprice, hsize, hl]; simp
            rw [hstep, ih, List.filterMap_cons, hs, filterMap_specAccept_insert,
              firstPerAddress_filter]
            simp only [firstPerAddress]
            have hk : (n - (out.length : Int)).toNat
                = (n - ((out ++ [({ Address := dbm.Address, DealProtocolVersion := p, Ask := k } : miner α)]).length : Int)).toNat + 1 := by
              simp at hfull ⊢; omega
            rw [hk, List.take_succ_cons]
            simp
          · exact skip (by simp only [selectLoop, hfull, hex, hpr, hask, ha, hprice, hsize]; simp)
              (by simp only [specAccept, hex, hp, ha, hprice, hsize]; simp)

/-! ## Provider selection: claims -/

/-- With `filterByPrice = false` the loop never consults `PriceIsTooHigh`. -/
theorem selectLoop_price_unused {α : Type} (mgr : MinerManager α) (tooHigh : α → Bool → Bool)
    (n : Int) (ps : Nat) :
    ∀ (l : List StorageMiner) (i : Nat) (out : List (miner α)) (ex : ExcludeSet),
      selectLoop { mgr with PriceIsTooHigh := tooHigh } n ps false i l out ex
        = selectLoop mgr n ps false i l out ex := by
  intro l
  induction l with
  | nil => intro i out ex; simp [selectLoop]
  | cons dbm rest ih =>
    intro i out ex
    simp only [selectLoop, MinerManager.GetDealProtocolForMiner, ih, Bool.false_and]

/-- The result of `randomMinerListForDeal` when the table read succeeds and
some provider is not suspended. -/
theorem randomMinerListForDeal_ok {α : Type} (mgr : MinerManager α) (rows : List StorageMiner)
    (hDB : mgr.DB = .ok rows) (rnd : Nat → Nat) (n : Int) (ps : Nat) (ex : ExcludeSet)
    (fbp : Bool) :
    mgr.randomMinerListForDeal rnd n ps ex fbp
      = (.ok (selectLoop mgr n ps fbp 0 (Shuffle rnd (rows.filter (fun r => !r.Suspended))) [] ex).1,
          (selectLoop mgr n ps fbp 0 (Shuffle rnd (rows.filter (fun r => !r.Suspended))) [] ex).2) := by
  unfold MinerManager.randomMinerListForDeal
  rw [hDB]
  simp only
  split
  · rename_i h
    rw [List.length_eq_zero.1 h]
    simp [Shuffle, shuffleFrom, selectLoop]
  · rfl

/-- C1 (selector distinctness): when the provider table can be read and
`n ≥ 0`, `randomMinerListForDeal` returns, for every random stream, exclude map
and lookup outcome, at most `n` providers, with pairwise distinct addresses,
each the address of a stored provider that is not suspended (and of no
suspended one when the stored addresses are pairwise distinct), none of them
in the exclude map the caller passed in. -/
theorem randomMinerListForDeal_distinct {α : Type} (mgr : MinerManager α)
    (rows : List StorageMiner) (hDB : mgr.DB = .ok rows) (rnd : Nat → Nat) (n : Int)
    (hn : 0 ≤ n) (pieceSize : Nat) (exclude : ExcludeSet) (filterByPrice : Bool) :
    ∃ out exclude',
      mgr.randomMinerListForDeal rnd n pieceSize exclude filterByPrice = (.ok out, exclude') ∧
      (out.length : Int) ≤ n ∧
      (out.map (fun m => m.Address)).Nodup ∧
      (∀ m ∈ out, ∃ dbm ∈ rows, dbm.Suspended = false ∧ dbm.Address = m.Address) ∧
      ((rows.map (fun r => r.Address)).Nodup →
        ∀ m ∈ out, ∀ dbm ∈ rows, dbm.Address = m.Address → dbm.Suspended = false) ∧
      (∀ m ∈ out, exclude m.Address = false) := by
  obtain ⟨added, h1, -, h3, h4, h5⟩ := selectLoop_spec mgr n pieceSize filterByPrice
    (Shuffle rnd (rows.filter (fun r => !r.Suspended))) 0 [] exclude
  have hstored : ∀ m ∈ (selectLoop mgr n pieceSize filterByPrice 0
      (Shuffle rnd (rows.filter (fun r => !r.Suspended))) [] exclude).1,
      ∃ dbm ∈ rows, dbm.Suspended = false ∧ dbm.Address = m.Address := by
    intro m hm
    rw [h1] at hm
    obtain ⟨-, ⟨d, hd, hda⟩, -, -⟩ := h5 m (by simpa using hm)
    have hd' := (Shuffle_perm rnd _).mem_iff.1 hd
    rw [List.mem_filter] at hd'
    exact ⟨d, hd'.1, by simpa using hd'.2, hda⟩
  refine ⟨_, _, randomMinerListForDeal_ok mgr rows hDB rnd n pieceSize exclude filterByPrice,
    ?_, ?_, hstored, ?_, ?_⟩
  · rw [h1]; exact h4 (by simpa using hn)
  · rw [h1]; simpa using h3
  · intro hnd m hm dbm hdbm haddr
    obtain ⟨d, hd, hsusp, hda⟩ := hstored m hm
    have : dbm = d := List.inj_on_of_nodup_map hnd hdbm hd (haddr.trans hda.symm)
    rw [this]; exact hsusp
  · intro m hm
    rw [h1] at hm
    exact (h5 m (by simpa using hm)).1

/-- Witness of C1 on the §8 scenario. -/
theorem randomMinerListForDeal_distinct_witness :
    scenarioMgr.DB = .ok scenarioRows ∧ (0 : Int) ≤ 2 ∧
    ∃ out exclude',
      scenarioMgr.randomMinerListForDeal (fun _ => 0) 2 1024 noExclude true = (.ok out, exclude') ∧
      (out.length : Int) ≤ 2 ∧
      (out.map (fun m => m.Address)).Nodup ∧
      (∀ m ∈ out, ∃ dbm ∈ scenarioRows, dbm.Suspended = false ∧ dbm.Address = m.Address) ∧
      ((scenarioRows.map (fun r => r.Address)).Nodup →
        ∀ m ∈ out, ∀ dbm ∈ scenarioRows, dbm.Address = m.Address → dbm.Suspended = false) ∧
      (∀ m ∈ out, noExclude m.Address = false) :=
  ⟨rfl, by decide,
    randomMinerListForDeal_distinct scenarioMgr scenarioRows rfl (fun _ => 0) 2 (by decide) 1024
      noExclude true⟩

/-- C3 (selector price filter): with `filterByPrice = true` no returned
provider's ask satisfies `PriceIsTooHigh` for the configured verification mode
`cfg.Deal.IsVerified`; with `filterByPrice = false` the call is the same
whatever `PriceIsTooHigh` answers, so the price test is not applied. -/
theorem randomMinerListForDeal_price {α : Type} (mgr : MinerManager α)
    (rows : List StorageMiner) (hDB : mgr.DB = .ok rows) (rnd : Nat → Nat) (n : Int)
    (pieceSize : Nat) (exclude : ExcludeSet) :
    (∃ out exclude',
      mgr.randomMinerListForDeal rnd n pieceSize exclude true = (.ok out, exclude') ∧
      ∀ m ∈ out, mgr.PriceIsTooHigh m.Ask mgr.cfg.IsVerified = false) ∧
    (∀ tooHigh : α → Bool → Bool,
      ({ mgr with PriceIsTooHigh := tooHigh }).randomMinerListForDeal rnd n pieceSize exclude false
        = mgr.randomMinerListForDeal rnd n pieceSize exclude false) := by
  constructor
  · obtain ⟨added, h1, -, -, -, h5⟩ := selectLoop_spec mgr n pieceSize true
      (Shuffle rnd (rows.filter (fun r => !r.Suspended))) 0 [] exclude
    refine ⟨_, _, randomMinerListForDeal_ok mgr rows hDB rnd n pieceSize exclude true, ?_⟩
    intro m hm
    rw [h1] at hm
    exact (h5 m (by simpa using hm)).2.2.1 rfl
  · intro tooHigh
    rw [randomMinerListForDeal_ok mgr rows hDB,
      randomMinerListForDeal_ok { mgr with PriceIsTooHigh := tooHigh } rows hDB,
      selectLoop_price_unused]

/-- Witness of C3 on the §8 scenario. -/
theorem randomMinerListForDeal_price_witness :
    scenarioMgr.DB = .ok scenarioRows ∧
    (∃ out exclude',
      scenarioMgr.randomMinerListForDeal (fun _ => 0) 2 1024 noExclude true = (.ok out, exclude') ∧
      ∀ m ∈ out, scenarioMgr.PriceIsTooHigh m.Ask scenarioMgr.cfg.IsVerified = false) ∧
    (∀ tooHigh : Nat → Bool → Bool,
      ({ scenarioMgr with PriceIsTooHigh := tooHigh }).randomMinerListForDeal (fun _ => 0) 2 1024
          noExclude false
        = scenarioMgr.randomMinerListForDeal (fun _ => 0) 2 1024 noExclude false) :=
  ⟨rfl, randomMinerListForDeal_price scenarioMgr scenarioRows rfl (fun _ => 0) 2 1024 noExclude⟩

/-- C8 (exclude accumulation): a call of `randomMinerListForDeal` leaves in the
caller's exclude map exactly the addresses that were in it plus the addresses
of the providers it returned, so nothing is removed; a second call handed that
map (whatever its other arguments and whatever the table then holds) returns no
provider the first call returned. -/
theorem randomMinerListForDeal_exclude {α : Type} (mgr mgr' : MinerManager α)
    (rows rows' : List StorageMiner) (hDB : mgr.DB = .ok rows) (hDB' : mgr'.DB = .ok rows')
    (rnd rnd' : Nat → Nat) (n n' : Int) (pieceSize pieceSize' : Nat) (exclude : ExcludeSet)
    (filterByPrice filterByPrice' : Bool) :
    ∃ out exclude₁ out' exclude₂,
      mgr.randomMinerListForDeal rnd n pieceSize exclude filterByPrice = (.ok out, exclude₁) ∧
      mgr'.randomMinerListForDeal rnd' n' pieceSize' exclude₁ filterByPrice'
        = (.ok out', exclude₂) ∧
      (∀ a, exclude₁ a = (exclude a || decide (a ∈ out.map (fun m => m.Address)))) ∧
      (∀ a, exclude a = true → exclude₁ a = true) ∧
      (∀ m ∈ out, exclude₁ m.Address = true) ∧
      (∀ m ∈ out, ∀ m' ∈ out', m'.Address ≠ m.Address) := by
  obtain ⟨added, h1, h2, -, -, -⟩ := selectLoop_spec mgr n pieceSize filterByPrice
    (Shuffle rnd (rows.filter (fun r => !r.Suspended))) 0 [] exclude
  obtain ⟨added', k1, -, -, -, k5⟩ := selectLoop_spec mgr' n' pieceSize' filterByPrice'
    (Shuffle rnd' (rows'.filter (fun r => !r.Suspended))) 0 []
    (selectLoop mgr n pieceSize filterByPrice 0
      (Shuffle rnd (rows.filter (fun r => !r.Suspended))) [] exclude).2
  have hmap : ∀ a, (selectLoop mgr n pieceSize filterByPrice 0
      (Shuffle rnd (rows.filter (fun r => !r.Suspended))) [] exclude).2 a
      = (exclude a || decide (a ∈ (selectLoop mgr n pieceSize filterByPrice 0
          (Shuffle rnd (rows.filter (fun r => !r.Suspended))) [] exclude).1.map
            (fun m => m.Address))) := by
    intro a
    rw [h2 a, h1, List.nil_append]
  refine ⟨_, _, _, _, randomMinerListForDeal_ok mgr rows hDB rnd n pieceSize exclude filterByPrice,
    randomMinerListForDeal_ok mgr' rows' hDB' rnd' n' pieceSize' _ filterByPrice', hmap, ?_, ?_, ?_⟩
  · intro a ha
    rw [hmap a, ha, Bool.true_or]
  · intro m hm
    rw [hmap m.Address]
    have : m.Address ∈ (selectLoop mgr n pieceSize filterByPrice 0
        (Shuffle rnd (rows.filter (fun r => !r.Suspended))) [] exclude).1.map
          (fun m => m.Address) := List.mem_map.2 ⟨m, hm, rfl⟩
    simp [this]
  · intro m hm m' hm' heq
    rw [k1] at hm'
    have hno := (k5 m' (by simpa using hm')).1
    rw [hmap m'.Address, heq] at hno
    have : m.Address ∈ (selectLoop mgr n pieceSize filterByPrice 0
        (Shuffle rnd (rows.filter (fun r => !r.Suspended))) [] exclude).1.map
          (fun m => m.Address) := List.mem_map.2 ⟨m, hm, rfl⟩
    simp [this] at hno

/-- Witness of C8: two calls on the §8 scenario, the second without the price
filter. -/
theorem randomMinerListForDeal_exclude_witness :
    scenarioMgr.DB = .ok scenarioRows ∧
    ∃ out exclude₁ out' exclude₂,
      scenarioMgr.randomMinerListForDeal (fun _ => 0) 2 1024 noExclude true = (.ok out, exclude₁) ∧
      scenarioMgr.randomMinerListForDeal (fun _ => 1) 2 1024 exclude₁ false
        = (.ok out', exclude₂) ∧
      (∀ a, exclude₁ a = (noExclude a || decide (a ∈ out.map (fun m => m.Address)))) ∧
      (∀ a, noExclude a = true → exclude₁ a = true) ∧
      (∀ m ∈ out, exclude₁ m.Address = true) ∧
      (∀ m ∈ out, ∀ m' ∈ out', m'.Address ≠ m.Address) :=
  ⟨rfl, randomMinerListForDeal_exclude scenarioMgr scenarioMgr scenarioRows scenarioRows rfl rfl
    (fun _ => 0) (fun _ => 1) 2 2 1024 1024 noExclude true false⟩

/-- C2 (selection as specified): when the lookups answer by address, the loop
run over any order of providers returns the first `n` eligible ones of that
order, each address once (`specSelect`); `randomMinerListForDeal` returns, with
a nil error, that selection for the shuffled non-suspended providers, the
shuffle being a permutation of them; and in the §8 scenario (one suspended, one
above the price ceiling, one eligible, `n = 2`, empty exclude, price filter on)
the result is exactly the one eligible provider, whatever the shuffle. -/
theorem randomMinerListForDeal_refines {α : Type} (mgr : MinerManager α)
    (proto : Address → Except String ProtocolID) (ask : Address → Except String α)
    (hproto : ∀ i a, mgr.DealProtocolForMiner i a = proto a)
    (hask : ∀ i a, mgr.GetAsk i a = ask a)
    (rows : List StorageMiner) (hDB : mgr.DB = .ok rows) (rnd : Nat → Nat) (n : Int)
    (pieceSize : Nat) (exclude : ExcludeSet) (filterByPrice : Bool) :
    (∀ order : List StorageMiner,
      (selectLoop mgr n pieceSize filterByPrice 0 order [] exclude).1
        = specSelect mgr proto ask n pieceSize exclude filterByPrice order) ∧
    (mgr.randomMinerListForDeal rnd n pieceSize exclude filterByPrice).1
      = .ok (specSelect mgr proto ask n pieceSize exclude filterByPrice
          (Shuffle rnd (rows.filter (fun r => !r.Suspended)))) ∧
    (Shuffle rnd (rows.filter (fun r => !r.Suspended))).Perm
      (rows.filter (fun r => !r.Suspended)) ∧
    (∀ rnd' : Nat → Nat,
      (scenarioMgr.randomMinerListForDeal rnd' 2 pieceSize noExclude true).1
        = .ok [{ Address := "f03", DealProtocolVersion := "/fil/storage/mk/1.2.0", Ask := 5 }]) := by
  have loop : ∀ {β : Type} (g : MinerManager β) (p : Address → Except String ProtocolID)
      (k : Address → Except String β), (∀ i a, g.DealProtocolForMiner i a = p a) →
      (∀ i a, g.GetAsk i a = k a) → ∀ (c : Int) (s : Nat) (e : ExcludeSet) (f : Bool)
      (order : List StorageMiner),
      (selectLoop g c s f 0 order [] e).1 = specSelect g p k c s e f order := by
    intro β g p k hp hk c s e f order
    rw [selectLoop_refines g p k hp hk c s f order 0 [] e]
    simp [specSelect]
  refine ⟨loop mgr proto ask hproto hask n pieceSize exclude filterByPrice, ?_,
    Shuffle_perm rnd _, ?_⟩
  · rw [randomMinerListForDeal_ok mgr rows hDB]
    simp only
    rw [loop mgr proto ask hproto hask]
  · intro rnd'
    rw [randomMinerListForDeal_ok scenarioMgr scenarioRows rfl]
    simp only
    rw [loop scenarioMgr scenarioProto scenarioAsk (fun _ _ => rfl) (fun _ _ => rfl)]
    have hsh : Shuffle rnd' (scenarioRows.filter (fun r => !r.Suspended))
        = swap [⟨"f02", false⟩, ⟨"f03", false⟩] 1 (rnd' 1 % 2) := rfl
    rw [hsh]
    rcases Nat.mod_two_eq_zero_or_one (rnd' 1) with h | h <;> rw [h] <;> rfl

/-- Witness of C2 on the §8 scenario. -/
theorem randomMinerListForDeal_refines_witness :
    (∀ i a, scenarioMgr.DealProtocolForMiner i a = scenarioProto a) ∧
    (∀ i a, scenarioMgr.GetAsk i a = scenarioAsk a) ∧
    scenarioMgr.DB = .ok scenarioRows ∧
    (∀ order : List StorageMiner,
      (selectLoop scenarioMgr 2 1024 true 0 order [] noExclude).1
        = specSelect scenarioMgr scenarioProto scenarioAsk 2 1024 noExclude true order) ∧
    (scenarioMgr.randomMinerListForDeal (fun _ => 0) 2 1024 noExclude true).1
      = .ok (specSelect scenarioMgr scenarioProto scenarioAsk 2 1024 noExclude true
          (Shuffle (fun _ => 0) (scenarioRows.filter (fun r => !r.Suspended)))) ∧
    (Shuffle (fun _ => 0) (scenarioRows.filter (fun r => !r.Suspended))).Perm
      (scenarioRows.filter (fun r => !r.Suspended)) ∧
    (∀ rnd' : Nat → Nat,
      (scenarioMgr.randomMinerListForDeal rnd' 2 1024 noExclude true).1
        = .ok [{ Address := "f03", DealProtocolVersion := "/fil/storage/mk/1.2.0", Ask := 5 }]) :=
  ⟨fun _ _ => rfl, fun _ _ => rfl, rfl,
    randomMinerListForDeal_refines scenarioMgr scenarioProto scenarioAsk (fun _ _ => rfl)
      (fun _ _ => rfl) scenarioRows rfl (fun _ => 0) 2 1024 noExclude true⟩

/-! ## Deal workers: claims -/

/-- The deal-make callback appends one call per entry, in order. -/
theorem runDealWorkerBatch_eq (makeDealsForContent : Nat → Nat → Int → Option String) :
    ∀ (tasks : List DealQueue) (i : Nat) (log : List QueueCall),
      runDealWorkerBatch makeDealsForContent i tasks log
        = log ++ (tasks.enumFrom i).map (fun p =>
            match makeDealsForContent p.1 p.2.ContID p.2.DealCount with
            | some _ => QueueCall.DealFailed p.2.ContID
            | none => QueueCall.DealComplete p.2.ContID) := by
  intro tasks
  induction tasks with
  | nil => intro i log; simp [runDealWorkerBatch]
  | cons t ts ih =>
    intro i log
    cases h : makeDealsForContent i t.ContID t.DealCount <;>
      simp [runDealWorkerBatch, h, ih, List.enumFrom_cons]

/-- The deal-check callback appends one call per entry, in order. -/
theorem runDealCheckWorkerBatch_eq (checkContentDeals : Nat → Nat → Except String Int) :
    ∀ (tasks : List DealQueue) (i : Nat) (log : List QueueCall),
      runDealCheckWorkerBatch checkContentDeals i tasks log
        = log ++ (tasks.enumFrom i).map (fun p =>
            match checkContentDeals p.1 p.2.ContID with
            | .error _ => QueueCall.DealCheckFailed p.2.ContID
            | .ok dealsToBeMade => QueueCall.DealCheckComplete p.2.ContID dealsToBeMade) := by
  intro tasks
  induction tasks with
  | nil => intro i log; simp [runDealCheckWorkerBatch]
  | cons t ts ih =>
    intro i log
    cases h : checkContentDeals i t.ContID <;>
      simp [runDealCheckWorkerBatch, h, ih, List.enumFrom_cons]

/-- C7 (a failure never aborts the batch): for every page and every pattern
of successes and failures, the deal-make callback reports exactly one outcome
per entry, in page order, `DealFailed` where `makeDealsForContent` returned an
error and `DealComplete` otherwise; the deal-check callback does the same with
`DealCheckFailed` and `DealCheckComplete` carrying the computed number of deals. -/
theorem deal_workers_report_every_entry
    (makeDealsForContent : Nat → Nat → Int → Option String)
    (checkContentDeals : Nat → Nat → Except String Int) (tasks : List DealQueue) :
    runDealWorkerBatch makeDealsForContent 0 tasks []
        = tasks.enum.map (fun p =>
            match makeDealsForContent p.1 p.2.ContID p.2.DealCount with
            | some _ => QueueCall.DealFailed p.2.ContID
            | none => QueueCall.DealComplete p.2.ContID) ∧
    runDealCheckWorkerBatch checkContentDeals 0 tasks []
        = tasks.enum.map (fun p =>
            match checkContentDeals p.1 p.2.ContID with
            | .error _ => QueueCall.DealCheckFailed p.2.ContID
            | .ok dealsToBeMade => QueueCall.DealCheckComplete p.2.ContID dealsToBeMade) ∧
    (runDealWorkerBatch makeDealsForContent 0 tasks []).length = tasks.length ∧
    (runDealCheckWorkerBatch checkContentDeals 0 tasks []).length = tasks.length := by
  rw [runDealWorkerBatch_eq, runDealCheckWorkerBatch_eq]
  simp [List.enum]

/-! ## Contents query: claims -/

/-- C10: `WithActive true` and `WithActive false` build the same query, and
either one selects, of the rows the query selected before, those whose active
flag is true. -/
theorem WithActive_ignores_argument (q : ContentsQuery) (table : List ContentRow) :
    q.WithActive true = q.WithActive false ∧
    ∀ active : Bool,
      (q.WithActive active).rows table = (q.rows table).filter (fun c => c.Active) := by
  refine ⟨rfl, ?_⟩
  intro active
  simp [ContentsQuery.rows, ContentsQuery.WithActive, List.filter_filter, Cond.holds,
    Bool.and_comm]

/-! ## Backfill worker: lemmas -/

/-- A worker that has left its loop stays where it is. -/
theorem backfillTicks_returned (m : manager) (k : Nat) (db : Store) :
    backfillTicks m k (.returned, db) = (.returned, db) := by
  cases k <;> rfl

/-- When `getQueueTracker` hands back a tracker marked done, the worker
returns at once, at start as well as on a tick. -/
theorem worker_returns_of_done (m : manager) (db db' : Store) (trk : DealQueueTracker)
    (h : getQueueTracker m db = (.ok trk, db')) (hdone : trk.BackfillDone = true) (k : Nat) :
    backfillTick m db = (.returned, db') ∧
    runDealBackFillWorker m k db = (.returned, db') ∧
    backfillTicks m (k + 1) (.running, db) = (.returned, db') := by
  have ht : backfillTick m db = (.returned, db') := by
    simp [backfillTick, h, hdone]
  refine ⟨ht, ?_, ?_⟩
  · simp [runDealBackFillWorker, backfillStart, h, hdone, backfillTicks_returned]
  · simp [backfillTicks, ht, backfillTicks_returned]

/-- The result of `getQueueTracker` on a first tracker row that is not marked done and has
reached its horizon, the store not failing. -/
theorem getQueueTracker_reached (m : manager) (hm : ∀ k, m.storeFails k = false) (db : Store)
    (trk : DealQueueTracker) (rest : List DealQueueTracker) (htrk : db.trackers = trk :: rest)
    (hnot : trk.BackfillDone = false) (hpast : trk.LastContID ≥ trk.StopAt) :
    getQueueTracker m db
      = (.ok { trk with BackfillDone := true },
          { db.step.step with trackers := setBackfillDone trk.ID db.trackers }) := by
  simp [getQueueTracker, markIfDone, hm, Store.step, htrk, hnot, hpast]

/-- The result of `getQueueTracker` on a first tracker row already marked done. -/
theorem getQueueTracker_done (m : manager) (hm : ∀ k, m.storeFails k = false) (db : Store)
    (trk : DealQueueTracker) (rest : List DealQueueTracker) (htrk : db.trackers = trk :: rest)
    (hdone : trk.BackfillDone = true) :
    getQueueTracker m db = (.ok trk, db.step) := by
  simp [getQueueTracker, hm, Store.step, htrk, hdone]

/-- The result of `getQueueTracker` on a store with no tracker row and no content of
positive size. -/
theorem getQueueTracker_fresh_empty (m : manager) (hm : ∀ k, m.storeFails k = false) (db : Store)
    (htrk : db.trackers = []) (hnone : ∀ c ∈ db.contents, c.Size ≤ 0) :
    getQueueTracker m db
      = (.ok { ID := 1, LastContID := 0, StopAt := 0, BackfillDone := true },
          { db.step.step.step.step with
            trackers := [{ ID := 1, LastContID := 0, StopAt := 0, BackfillDone := true }] }) := by
  have hf : db.contents.filter (fun c => decide (c.Size > 0)) = [] := by
    rw [List.filter_eq_nil_iff]
    intro c hc
    have := hnone c hc
    simp only [decide_eq_true_eq]
    omega
  simp [getQueueTracker, markIfDone, hm, Store.step, htrk, hf, setBackfillDone]

/-- C9 (a tracker at or past its horizon ends the backfill): with a store that
does not fail,
* a first tracker row with `lastContentID ≥ stopAt` (equal or greater) comes
  back from `getQueueTracker` with `backfillDone = true`, the row is stored with
  that flag, and the worker that reads it returns without enqueueing anything;
* with no tracker row and no content of positive size, the tracker created has
  `lastContentID = 0 = stopAt`, is stored and returned with `backfillDone = true`,
  and the worker returns without enqueueing anything;
* a tracker row already marked done is returned as it is, the tables untouched. -/
theorem getQueueTracker_forces_done (m : manager) (hm : ∀ k, m.storeFails k = false)
    (db : Store) :
    (∀ trk rest, db.trackers = trk :: rest → trk.LastContID ≥ trk.StopAt →
      ∃ db', getQueueTracker m db = (.ok { trk with BackfillDone := true }, db') ∧
        db'.trackers.head? = some { trk with BackfillDone := true } ∧
        db'.contents = db.contents ∧ db'.queued = db.queued ∧
        ∀ k, backfillTick m db = (.returned, db') ∧
          runDealBackFillWorker m k db = (.returned, db') ∧
          backfillTicks m (k + 1) (.running, db) = (.returned, db')) ∧
    (db.trackers = [] → (∀ c ∈ db.contents, c.Size ≤ 0) →
      ∃ db', getQueueTracker m db
          = (.ok { ID := 1, LastContID := 0, StopAt := 0, BackfillDone := true }, db') ∧
        db'.trackers = [{ ID := 1, LastContID := 0, StopAt := 0, BackfillDone := true }] ∧
        db'.contents = db.contents ∧ db'.queued = db.queued ∧
        ∀ k, backfillTick m db = (.returned, db') ∧
          runDealBackFillWorker m k db = (.returned, db') ∧
          backfillTicks m (k + 1) (.running, db) = (.returned, db')) ∧
    (∀ trk rest, db.trackers = trk :: rest → trk.BackfillDone = true →
      getQueueTracker m db = (.ok trk, db.step) ∧
      db.step.trackers = db.trackers ∧ db.step.contents = db.contents ∧
      db.step.queued = db.queued) := by
  refine ⟨?_, ?_, ?_⟩
  · intro trk rest htrk hpast
    cases hd : trk.BackfillDone with
    | true =>
      have h := getQueueTracker_done m hm db trk rest htrk hd
      have htrk' : ({ trk with BackfillDone := true } : DealQueueTracker) = trk := by
        cases trk; simp_all
      rw [htrk']
      exact ⟨db.step, h, by simp [Store.step, htrk], rfl, rfl,
        fun k => worker_returns_of_done m db _ trk h hd k⟩
    | false =>
      have h := getQueueTracker_reached m hm db trk rest htrk hd hpast
      exact ⟨_, h, by simp [Store.step, htrk, setBackfillDone], rfl, rfl,
        fun k => worker_returns_of_done m db _ _ h rfl k⟩
  · intro htrk hnone
    have h := getQueueTracker_fresh_empty m hm db htrk hnone
    exact ⟨_, h, rfl, rfl, rfl, fun k => worker_returns_of_done m db _ _ h rfl k⟩
  · intro trk rest htrk hd
    exact ⟨getQueueTracker_done m hm db trk rest htrk hd, rfl, rfl, rfl⟩

/-- Witness of C9: a tracker past its horizon (`7 > 5`), a store with neither
tracker nor content, and a tracker already marked done. -/
theorem getQueueTracker_forces_done_witness :
    (∀ k, steadyManager.storeFails k = false) ∧
    (∃ db', getQueueTracker steadyManager staleStore
        = (.ok { ID := 1, LastContID := 7, StopAt := 5, BackfillDone := true }, db') ∧
      db'.trackers.head? = some { ID := 1, LastContID := 7, StopAt := 5, BackfillDone := true } ∧
      db'.contents = staleStore.contents ∧ db'.queued = staleStore.queued ∧
      ∀ k, backfillTick steadyManager staleStore = (.returned, db') ∧
        runDealBackFillWorker steadyManager k staleStore = (.returned, db') ∧
        backfillTicks steadyManager (k + 1) (.running, staleStore) = (.returned, db')) ∧
    (∃ db', getQueueTracker steadyManager emptyStore
        = (.ok { ID := 1, LastContID := 0, StopAt := 0, BackfillDone := true }, db') ∧
      db'.trackers = [{ ID := 1, LastContID := 0, StopAt := 0, BackfillDone := true }] ∧
      db'.contents = emptyStore.contents ∧ db'.queued = emptyStore.queued ∧
      ∀ k, backfillTick steadyManager emptyStore = (.returned, db') ∧
        runDealBackFillWorker steadyManager k emptyStore = (.returned, db') ∧
        backfillTicks steadyManager (k + 1) (.running, emptyStore) = (.returned, db')) ∧
    (getQueueTracker steadyManager doneStore
        = (.ok { ID := 1, LastContID := 1, StopAt := 2, BackfillDone := true }, doneStore.step) ∧
      doneStore.step.trackers = doneStore.trackers ∧
      doneStore.step.contents = doneStore.contents ∧
      doneStore.step.queued = doneStore.queued) :=
  have h := getQueueTracker_forces_done steadyManager (fun _ => rfl)
  ⟨fun _ => rfl,
    (h staleStore).1 { ID := 1, LastContID := 7, StopAt := 5, BackfillDone := false } [] rfl
      (by decide),
    (h emptyStore).2.1 rfl (by simp [emptyStore]),
    (h doneStore).2.2 { ID := 1, LastContID := 1, StopAt := 2, BackfillDone := true } [] rfl rfl⟩

/-- Without store failures the backfill loop enqueues every content of the
page and leaves the (single) tracker row at the id of the last one. -/
theorem backfillLoop_steady (m : manager) (hm : ∀ k, m.storeFails k = false)
    (tracker : DealQueueTracker) :
    ∀ (cs : List Content) (db : Store) (t : DealQueueTracker), db.trackers = [t] →
      t.ID = tracker.ID →
      (backfillLoop m tracker cs db).contents = db.contents ∧
      (backfillLoop m tracker cs db).queued = db.queued ++ cs.map (fun c => c.ID) ∧
      (backfillLoop m tracker cs db).trackers
        = [{ t with LastContID := ((cs.getLast?).map (fun c => c.ID)).getD t.LastContID }] := by
  intro cs
  induction cs with
  | nil => intro db t ht _; simp [backfillLoop, ht]
  | cons c cs ih =>
    intro db t ht hid
    have hq : backfillQueue m c tracker db
        = (.ok (), { contents := db.contents,
                     trackers := [{ t with LastContID := c.ID }],
                     queued := db.queued ++ [c.ID], ops := db.ops + 1 + 1 }) := by
      simp [backfillQueue, hm, Store.step, ht, setLastContID, hid]
    obtain ⟨h1, h2, h3⟩ := ih
      ({ contents := db.contents, trackers := [{ t with LastContID := c.ID }],
         queued := db.queued ++ [c.ID], ops := db.ops + 1 + 1 } : Store)
      ({ t with LastContID := c.ID } : DealQueueTracker) rfl hid
    simp only [backfillLoop, hq]
    refine ⟨h1, ?_, ?_⟩
    · rw [h2]; simp
    · rw [h3, List.getLast?_cons]
      cases cs.getLast? <;> rfl

/-- Without store failures, a tick on a tracker that is not done and below its
horizon, with a non-empty page, enqueues the whole page and leaves the tracker
at the id of the page's last row: the page does not depend on the tracker. -/
theorem backfillTick_steady (m : manager) (hm : ∀ k, m.storeFails k = false) (db : Store)
    (t : DealQueueTracker) (ht : db.trackers = [t]) (hnot : t.BackfillDone = false)
    (hlt : t.LastContID < t.StopAt) (page : List Content)
    (hpage : ((db.contents.filter (fun c =>
      decide (c.Size ≥ m.cfg.MinSize) && decide (c.Size ≤ m.cfg.MaxSize) && c.Active)).insertionSort
        idAsc).take 2000 = page) (hne : page ≠ []) :
    (backfillTick m db).1 = .running ∧
    (backfillTick m db).2.contents = db.contents ∧
    (backfillTick m db).2.queued = db.queued ++ page.map (fun c => c.ID) ∧
    (backfillTick m db).2.trackers
      = [{ t with LastContID := ((page.getLast?).map (fun c => c.ID)).getD t.LastContID }] := by
  have hg : getQueueTracker m db = (.ok t, db.step) := by
    simp [getQueueTracker, markIfDone, hm, Store.step, ht, hnot, Nat.not_le.2 hlt]
  have hp : backfillPage m db.step = page := by
    simp only [backfillPage, Store.step]; exact hpage
  obtain ⟨h1, h2, h3⟩ := backfillLoop_steady m hm t page db.step.step t
    (by simp [Store.step, ht]) rfl
  have htick : backfillTick m db = (.running, backfillLoop m t page db.step.step) := by
    simp [backfillTick, hg, hnot, hm, hp, hne]
  rw [htick]
  exact ⟨rfl, h1, h2, h3⟩

/-- Without store failures, the start of the worker on a store with no tracker
row creates the row with the greatest id among the contents of positive size
as its horizon, and the worker enters its loop when that id is positive. -/
theorem backfillStart_fresh (m : manager) (hm : ∀ k, m.storeFails k = false) (db : Store)
    (ht : db.trackers = []) (c : Content)
    (htop : ((db.contents.filter (fun c => decide (c.Size > 0))).insertionSort idDesc).take 1
      = [c]) (hpos : 0 < c.ID) :
    backfillStart m db
      = (.running, { db with
          trackers := [{ ID := 1, LastContID := 0, StopAt := c.ID, BackfillDone := false }],
          ops := db.ops + 1 + 1 + 1 }) := by
  have hg : getQueueTracker m db
      = (.ok { ID := 1, LastContID := 0, StopAt := c.ID, BackfillDone := false },
          { db with
            trackers := [{ ID := 1, LastContID := 0, StopAt := c.ID, BackfillDone := false }],
            ops := db.ops + 1 + 1 + 1 }) := by
    simp [getQueueTracker, markIfDone, hm, Store.step, ht, htop, Nat.not_le.2 hpos]
  simp [backfillStart, hg]

/-- The page of a backfill tick has at most 2000 rows, in ascending id order,
each a stored content that is active and within the size bounds. -/
theorem backfillPage_rows (m : manager) (db : Store) :
    (backfillPage m db).length ≤ 2000 ∧
    (backfillPage m db).Sorted idAsc ∧
    ∀ c ∈ backfillPage m db,
      c ∈ db.contents ∧ m.cfg.MinSize ≤ c.Size ∧ c.Size ≤ m.cfg.MaxSize ∧ c.Active = true := by
  haveI : IsTotal Content idAsc := ⟨fun a b => Nat.le_total a.ID b.ID⟩
  haveI : IsTrans Content idAsc := ⟨fun _ _ _ hab hbc => Nat.le_trans hab hbc⟩
  refine ⟨List.length_take_le _ _, ?_, ?_⟩
  · exact (List.sorted_insertionSort idAsc _).sublist (List.take_sublist _ _)
  · intro c hc
    have h1 := List.mem_of_mem_take hc
    have h2 := (List.perm_insertionSort idAsc _).mem_iff.1 h1
    rw [List.mem_filter] at h2
    simpa [and_assoc] using h2

/-- The first row under `ORDER BY id DESC` is the row of greatest id. -/
theorem take_one_insertionSort_idDesc (l : List Content) (c : Content) (hc : c ∈ l)
    (hmax : ∀ d ∈ l, d.ID ≤ c.ID) (huniq : ∀ d ∈ l, d.ID = c.ID → d = c) :
    (l.insertionSort idDesc).take 1 = [c] := by
  haveI : IsTotal Content idDesc := ⟨fun a b => Nat.le_total b.ID a.ID⟩
  haveI : IsTrans Content idDesc := ⟨fun _ _ _ hab hbc => Nat.le_trans hbc hab⟩
  have hperm := List.perm_insertionSort idDesc l
  have hsorted := List.sorted_insertionSort idDesc l
  have hcs : c ∈ l.insertionSort idDesc := hperm.mem_iff.2 hc
  cases hs : l.insertionSort idDesc with
  | nil => rw [hs] at hcs; simp at hcs
  | cons h tl =>
    rw [hs] at hcs hsorted
    have hh : h ∈ l := hperm.mem_iff.1 (by rw [hs]; exact List.mem_cons_self _ _)
    have hle : c.ID ≤ h.ID := by
      rcases List.mem_cons.1 hcs with rfl | hct
      · exact Nat.le_refl _
      · exact List.rel_of_sorted_cons hsorted c hct
    have : h = c := huniq h hh (Nat.le_antisymm (hmax h hh) hle)
    simp [this]

/-- The page query on the §8 backfill scenario: contents 1..2000. -/
theorem scenario_page :
    ((scenarioStore.contents.filter (fun c =>
      decide (c.Size ≥ steadyManager.cfg.MinSize) && decide (c.Size ≤ steadyManager.cfg.MaxSize)
        && c.Active)).insertionSort idAsc).take 2000
      = (List.range' 1 2000).map (fun i => (⟨i, 10, true⟩ : Content)) := by
  have hfilter : scenarioStore.contents.filter (fun c =>
      decide (c.Size ≥ steadyManager.cfg.MinSize) && decide (c.Size ≤ steadyManager.cfg.MaxSize)
        && c.Active) = scenarioStore.contents := by
    rw [List.filter_eq_self]
    intro c hc
    simp only [scenarioStore, List.mem_map] at hc
    obtain ⟨i, -, rfl⟩ := hc
    rfl
  have hsorted : List.Sorted idAsc scenarioStore.contents := by
    simp only [scenarioStore, List.Sorted, List.pairwise_map]
    exact (List.pairwise_le_range' 1 5000).imp (fun h => h)
  rw [hfilter, hsorted.insertionSort_eq]
  have hsplit : List.range' 1 5000 = List.range' 1 2000 ++ List.range' 2001 3000 := by
    have := List.range'_append 1 2000 3000 1
    simpa using this.symm
  simp only [scenarioStore, hsplit, List.map_append]
  rw [List.take_left' (by simp)]

/-- The start of the worker on the §8 backfill scenario creates the tracker
with horizon 5000. -/
theorem scenario_start :
    backfillStart steadyManager scenarioStore
      = (.running, { scenarioStore with
          trackers := [{ ID := 1, LastContID := 0, StopAt := 5000, BackfillDone := false }],
          ops := scenarioStore.ops + 1 + 1 + 1 }) := by
  have hfilter : scenarioStore.contents.filter (fun c => decide (c.Size > 0))
      = scenarioStore.contents := by
    rw [List.filter_eq_self]
    intro c hc
    simp only [scenarioStore, List.mem_map] at hc
    obtain ⟨i, -, rfl⟩ := hc
    rfl
  have htop : ((scenarioStore.contents.filter (fun c => decide (c.Size > 0))).insertionSort
      idDesc).take 1 = [⟨5000, 10, true⟩] := by
    rw [hfilter]
    apply take_one_insertionSort_idDesc
    · simp only [scenarioStore, List.mem_map]
      exact ⟨5000, by simp, rfl⟩
    · intro d hd
      simp only [scenarioStore, List.mem_map, List.mem_range'_1] at hd
      obtain ⟨i, hi, rfl⟩ := hd
      simp only
      omega
    · intro d hd hid
      simp only [scenarioStore, List.mem_map] at hd
      obtain ⟨i, -, rfl⟩ := hd
      simp only at hid
      rw [hid]
  exact backfillStart_fresh steadyManager (fun _ => rfl) scenarioStore rfl _ htop (by decide)

/-- On the §8 backfill scenario every tick fetches contents 1..2000 again: the
worker keeps running, the tracker stays at 2000 and nothing beyond 2000 is
enqueued. -/
theorem scenario_ticks :
    ∀ (k : Nat) (db : Store) (L : Nat), db.contents = scenarioStore.contents → L ≤ 2000 →
      db.trackers = [{ ID := 1, LastContID := L, StopAt := 5000, BackfillDone := false }] →
      (∀ q ∈ db.queued, q ≤ 2000) →
      (backfillTicks steadyManager k (.running, db)).1 = .running ∧
      (backfillTicks steadyManager k (.running, db)).2.contents = scenarioStore.contents ∧
      (backfillTicks steadyManager k (.running, db)).2.trackers
        = [{ ID := 1, LastContID := if k = 0 then L else 2000, StopAt := 5000,
             BackfillDone := false }] ∧
      (∀ q ∈ (backfillTicks steadyManager k (.running, db)).2.queued, q ≤ 2000) := by
  intro k
  induction k with
  | zero => intro db L hc _ ht hq; exact ⟨rfl, hc, by simpa [backfillTicks] using ht, hq⟩
  | succ k ih =>
    intro db L hc hL ht hq
    have hne : (List.range' 1 2000).map (fun i => (⟨i, 10, true⟩ : Content)) ≠ [] := by
      intro h
      have := congrArg List.length h
      simp at this
    have hlast : ((List.range' 1 2000).map (fun i => (⟨i, 10, true⟩ : Content))).getLast?
        = some ⟨2000, 10, true⟩ := by
      rw [List.getLast?_map, List.getLast?_range']
      rfl
    obtain ⟨h1, h2, h3, h4⟩ := backfillTick_steady steadyManager (fun _ => rfl) db _ ht rfl
      (by show L < 5000; omega) _ (by rw [hc]; exact scenario_page) hne
    have hpair : backfillTick steadyManager db
        = (.running, (backfillTick steadyManager db).2) := Prod.ext h1 rfl
    have hstep : backfillTicks steadyManager (k + 1) (.running, db)
        = backfillTicks steadyManager k (.running, (backfillTick steadyManager db).2) := by
      rw [← hpair]; rfl
    rw [hstep]
    rw [hlast] at h4
    obtain ⟨i1, i2, i3, i4⟩ := ih (backfillTick steadyManager db).2 2000 (h2.trans hc)
      (Nat.le_refl _) h4 (by
        intro q hq'
        rw [h3] at hq'
        rcases List.mem_append.1 hq' with hq' | hq'
        · exact hq q hq'
        · simp only [List.map_map, List.mem_map, List.mem_range'_1] at hq'
          obtain ⟨i, hi, rfl⟩ := hq'
          simp only [Function.comp]
          omega)
    refine ⟨i1, i2, ?_, i4⟩
    rw [i3]
    simp

/-! ## Backfill worker: the page query does not use the cursor -/

/-- C4 (the page starts after the cursor), evaluated on `stalledStore`: after
one tick the tracker stands at `lastContentID = 1 < stopAt = 2`, and the page
of the next tick is content 1 again, whose id is not greater than the cursor;
that tick enqueues content 1 a second time. -/
theorem backfill_page_ignores_cursor :
    runDealBackFillWorker steadyManager 1 stalledStore
      = (.running, { stalledStore with
          trackers := [{ ID := 1, LastContID := 1, StopAt := 2, BackfillDone := false }],
          queued := [1], ops := 7 }) ∧
    (getQueueTracker steadyManager (runDealBackFillWorker steadyManager 1 stalledStore).2).1
      = .ok { ID := 1, LastContID := 1, StopAt := 2, BackfillDone := false } ∧
    backfillPage steadyManager (runDealBackFillWorker steadyManager 1 stalledStore).2
      = [⟨1, 10, true⟩] ∧
    (runDealBackFillWorker steadyManager 2 stalledStore).2.queued = [1, 1] :=
  ⟨by decide, rfl, by decide, by decide⟩

/-- C5 (backfill termination), evaluated on the §8 scenario (no tracker row,
contents 1..5000 within the size bounds, a store that never fails): after any
number of ticks the worker is still running, the tracker is not marked done and
stands at 2000 at most, and no content beyond 2000 has been enqueued. -/
theorem backfill_scenario_never_completes (k : Nat) :
    (runDealBackFillWorker steadyManager k scenarioStore).1 = .running ∧
    (runDealBackFillWorker steadyManager k scenarioStore).2.trackers
      = [{ ID := 1, LastContID := if k = 0 then 0 else 2000, StopAt := 5000,
           BackfillDone := false }] ∧
    (∀ q ∈ (runDealBackFillWorker steadyManager k scenarioStore).2.queued, q ≤ 2000) := by
  unfold runDealBackFillWorker
  rw [scenario_start]
  obtain ⟨h1, -, h3, h4⟩ := scenario_ticks k
    { scenarioStore with
      trackers := [{ ID := 1, LastContID := 0, StopAt := 5000, BackfillDone := false }],
      ops := scenarioStore.ops + 1 + 1 + 1 } 0 rfl (by omega) rfl
    (by intro q hq; exact absurd hq (List.not_mem_nil q))
  exact ⟨h1, h3, h4⟩

/-- C6 (backfill monotonicity), evaluated on `retryStore`: the first tick
enqueues contents 1 and 2 and leaves the cursor at 2; the second tick enqueues
1 and 2 again, its first `backfillQueue` writing the cursor back to 1; and when
the second tick's `QueueContent` for content 2 fails, the tick ends with the
persisted cursor at 1, below the 2 recorded by the first tick. -/
theorem backfill_cursor_goes_back :
    (runDealBackFillWorker steadyManager 1 retryStore).2.trackers
      = [{ ID := 1, LastContID := 2, StopAt := 3, BackfillDone := false }] ∧
    (runDealBackFillWorker steadyManager 1 retryStore).2.queued = [1, 2] ∧
    (backfillQueue steadyManager ⟨1, 10, true⟩
        { ID := 1, LastContID := 2, StopAt := 3, BackfillDone := false }
        (runDealBackFillWorker steadyManager 1 retryStore).2).2.trackers
      = [{ ID := 1, LastContID := 1, StopAt := 3, BackfillDone := false }] ∧
    (runDealBackFillWorker steadyManager 2 retryStore).2.queued = [1, 2, 1, 2] ∧
    (runDealBackFillWorker flakyManager 1 retryStore).2.trackers
      = [{ ID := 1, LastContID := 2, StopAt := 3, BackfillDone := false }] ∧
    (runDealBackFillWorker flakyManager 2 retryStore).2.trackers
      = [{ ID := 1, LastContID := 1, StopAt := 3, BackfillDone := false }] ∧
    (runDealBackFillWorker flakyManager 2 retryStore).2.queued = [1, 2, 1] := by
  decide

end Estuary
